import Mathlib

/-!
# Verification of the ubiquibot-kernel command-dispatch pipeline

Shallow embedding of the command-dispatch / poll / extract subsystem of the
repository (`src/github/handlers/issue-comment/created.ts`) and of the worker
comment handler (`src/handlers/issue/comment_created.ts`), together with
theorems settling the specification claims.

Modelling conventions:
* JS strings are Lean `String`s (char-level operations go through `.data`).
* HTTP responses are passed in as explicit parameters (the remote listing,
  the scripted status sequence, the job list): the code only reads them.
* A JS object used as a string-keyed map is an association list in insertion
  order; assignment `acc[key] = v` overwrites in place (`insertOutput`).
* A thrown, uncaught JS exception is `Option.none`.
-/

namespace UbiquibotKernel

/-- The plugin/command record (`Plugin` of `ubiquibot-config`), restricted to
the fields the pipeline reads: `name` (display name) and `command` (match
string). -/
structure Plugin where
  name : String
  command : String
  deriving Repr, DecidableEq

/-- JS `\w` word character: `[A-Za-z0-9_]`. -/
def isWordChar (c : Char) : Bool :=
  c.isAlphanum || c == '_'

/-- Word-character test lifted to an optional character; out-of-range string
positions count as non-word, as in JS `\b`. -/
def wordCharOpt : Option Char → Bool
  | some c => isWordChar c
  | none => false

/-- Semantics of one literal alternative `cmd` of the JS regex
`^(cmd1|cmd2|...)\b` against `body`: `cmd` must be a prefix of `body` and a
word boundary must hold at the position right after the match (between the
last matched character and the following character of `body`). -/
def matchesAtStart (cmd body : String) : Bool :=
  cmd.data.isPrefixOf body.data &&
    (wordCharOpt cmd.data.getLast? != wordCharOpt (body.data.drop cmd.data.length).head?)

/-- `new RegExp("^(" + pluginCommands.join("|") + ")\b").exec(body)`, returning
`matches[0]`. JS alternation tries the alternatives left to right and yields
the first one whose literal text matches with the trailing word boundary.
When `alts` is empty, `join("|")` produces the empty pattern `^()\b`, i.e. a
single empty alternative. Command strings are treated as regex-literal text
(true of the shipped `"/help"` command). -/
def regexExecAlt (alts : List String) (body : String) : Option String :=
  (if alts.isEmpty then [""] else alts).find? (fun c => matchesAtStart c body)

/-- `commentParser` of `created.ts`, parameterised by the regex-engine
behaviour `execAlt` (the call `regex.exec(body)`): maps the plugins to their
command strings, runs the regex, and returns the matched text only if it is
literally one of the configured command strings. -/
def commentParserWith (execAlt : List String → String → Option String)
    (body : String) (plugins : List Plugin) : Option String :=
  match execAlt (plugins.map (·.command)) body with
  | some command =>
      if (plugins.map (·.command)).contains command then some command else none
  | none => none

/-- `commentParser(body, plugins)` of `created.ts` with the literal-alternation
regex semantics. -/
def commentParser (body : String) (plugins : List Plugin) : Option String :=
  commentParserWith regexExecAlt body plugins

/-- The shipped `userCommands` list of `created.ts`, restricted to the
modelled fields. -/
def userCommands : List Plugin :=
  [{ name := "Help Menu", command := "/help" }]

/-- The ECMAScript `\s` whitespace class (regex `/\s/g` of `created.ts`). -/
def isJsWhitespace (c : Char) : Bool :=
  c == ' ' || c == '\t' || c == '\n' || (c == Char.ofNat 0x0b) || (c == Char.ofNat 0x0c) ||
    c == '\r' || (c == Char.ofNat 0xa0) || (c == Char.ofNat 0x1680) ||
    (0x2000 ≤ c.toNat && c.toNat ≤ 0x200a) || (c == Char.ofNat 0x2028) ||
    (c == Char.ofNat 0x2029) || (c == Char.ofNat 0x202f) || (c == Char.ofNat 0x205f) ||
    (c == Char.ofNat 0x3000) || (c == Char.ofNat 0xfeff)

/-- JS `s.toLowerCase()` (faithful on the ASCII range). -/
def jsToLowerCase (s : String) : String :=
  String.mk (s.data.map Char.toLower)

/-- JS `s.replace(/\s/g, "-")`. -/
def jsReplaceWsWithHyphen (s : String) : String :=
  String.mk (s.data.map (fun c => if isJsWhitespace c then '-' else c))

/-- The dispatch event type as computed in `pluginDispatch` of `created.ts`:
`plugin.name.toLowerCase().replace(/\s/g, "-")`. -/
def deriveEventType (name : String) : String :=
  jsReplaceWsWithHyphen (jsToLowerCase name)

/-- A workflow run as read from the remote listing (`WorkflowRun` interface of
`created.ts`). -/
structure WorkflowRun where
  id : Nat
  name : String
  status : String
  deriving Repr, DecidableEq

/-- `fetchInvokedPluginRunner(owner, repo, eventType)` of `created.ts`. The
remote listing (the `workflow_runs` array of the HTTP response,
most-recent-first) is passed in as `workflowRuns`; `owner` and `repo` only
select the URL and do not affect the computation on the response. The code
filters the listing to runs named `eventType` and takes the first five:
`data.workflow_runs.filter((run) => run.name === eventType).slice(0, 5)`. -/
def fetchInvokedPluginRunner (_owner _repo : String) (eventType : String)
    (workflowRuns : List WorkflowRun) : List WorkflowRun :=
  (workflowRuns.filter (fun run => run.name == eventType)).take 5

/-- `fetchInProgressRunsBatch5(owner, repo, eventType)` of `created.ts`:
the batch of `fetchInvokedPluginRunner`, filtered to
`run.status === "in_progress"`. -/
def fetchInProgressRunsBatch5 (owner repo : String) (eventType : String)
    (workflowRuns : List WorkflowRun) : List WorkflowRun :=
  (fetchInvokedPluginRunner owner repo eventType workflowRuns).filter
    (fun run => run.status == "in_progress")

/-- One observable action of the polling loop of
`pollInProgressRunTillCompletion`: a status read (the GET on the run URL) or
a suspension (`setTimeout`, in milliseconds). -/
inductive PollEvent where
  | read (status : String)
  | sleep (ms : Nat)
  deriving Repr, DecidableEq

/-- The `while (!isCompleted)` loop of `pollInProgressRunTillCompletion` of
`created.ts`, run against a scripted sequence of status reads (the successive
`runData.status` values the remote returns). Returns the trace of actions the
loop performs, or `none` when the script is exhausted before a `"completed"`
read (the code would keep looping). Each iteration reads one status; on
`"completed"` the loop exits, otherwise it suspends 15000 ms and retries. -/
def pollTrace : List String → Option (List PollEvent)
  | [] => none
  | s :: rest =>
      if s == "completed" then some [.read s]
      else (pollTrace rest).map (fun tr => .read s :: .sleep 15000 :: tr)

/-- The statuses observed by the reads of a poll trace, in order. -/
def readsOf (tr : List PollEvent) : List String :=
  tr.filterMap (fun e => match e with | .read s => some s | .sleep _ => none)

/-- A step of a job (`step: { conclusion, outputs }` in `fetchRunLogs` of
`created.ts`). `outputs` is `none` when the JS field is absent
(`undefined`/`null`, falsy); a present mapping is an association list in
declared key order. -/
structure Step where
  conclusion : String
  outputs : Option (List (String × String))
  deriving Repr, DecidableEq

/-- A job of a run (`jobsData.jobs[i]`), with its declared steps (the
`jobDetails.steps` array fetched for that job's id). -/
structure Job where
  id : Nat
  steps : List Step
  deriving Repr, DecidableEq

/-- JS object assignment `acc[key] = v` on a string-keyed object modelled as
an insertion-ordered association list: an existing key keeps its position and
gets the new value, a new key is appended. -/
def insertOutput (acc : List (String × String)) (k v : String) :
    List (String × String) :=
  if acc.any (fun p => p.1 == k) then
    acc.map (fun p => if p.1 == k then (k, v) else p)
  else acc ++ [(k, v)]

/-- One step of the `reduce` in `fetchRunLogs` of `created.ts`:
`if (step.conclusion === "success" && step.outputs) { Object.keys(step.outputs)
.forEach((key) => { acc[key] = step.outputs[key]; }); } return acc;`. -/
def mergeStep (acc : List (String × String)) (step : Step) :
    List (String × String) :=
  if step.conclusion == "success" then
    match step.outputs with
    | some outs => outs.foldl (fun a kv => insertOutput a kv.1 kv.2) acc
    | none => acc
  else acc

/-- The whole `jobDetails.steps.reduce(..., {})` of `fetchRunLogs`. -/
def extractOutputs (steps : List Step) : List (String × String) :=
  steps.foldl mergeStep []

/-- `fetchRunLogs(runID, owner, repo)` of `created.ts`, with the jobs array of
the run (`jobsData.jobs`, each paired with the step list its job-details fetch
returns) passed in. The code takes `jobsData.jobs[0].id` and reduces that
job's steps; on an empty jobs array `jobsData.jobs[0]` is `undefined` and the
`.id` access throws an uncaught `TypeError`, modelled as `none`. -/
def fetchRunLogs (jobs : List Job) : Option (List (String × String)) :=
  match jobs with
  | [] => none
  | job :: _ => some (extractOutputs job.steps)

/-- Lookup in the accumulated output object. -/
def lookupKV (m : List (String × String)) (k : String) : Option String :=
  (m.find? (fun p => p.1 == k)).map (·.2)

/-- The value of the last occurrence of key `k` in one step's declared
outputs, if any. -/
def lastOutputOccurrence (outs : List (String × String)) (k : String) : Option String :=
  (outs.reverse.find? (fun p => p.1 == k)).map (·.2)

/-- Last-write-wins reading of the step fold, stated independently of the
accumulator: the value of key `k` is the one from the last successful step
with declared outputs whose outputs mention `k` (and within a step, from the
last mention). -/
def lastSuccessOutput (steps : List Step) (k : String) : Option String :=
  steps.reverse.findSome? (fun st =>
    if st.conclusion == "success" then
      match st.outputs with
      | some outs => lastOutputOccurrence outs k
      | none => none
    else none)

/-- The remote world one `pluginDispatch` invocation interacts with: the run
listing the locator will see, the scripted status sequence the poller will
read, and the jobs of the polled run. -/
structure RemoteEnv where
  workflowRuns : List WorkflowRun
  statuses : List String
  jobs : List Job

/-- Observable stages of one `pluginDispatch` invocation. -/
inductive OrchEvent where
  | dispatched (eventType : String)
  | polled (runId : Nat)
  | extracted
  deriving Repr, DecidableEq

/-- Result of one `pluginDispatch` invocation. `noRunsFound` is the early
`return "No runs found"`; `completedWith out` is the normal path, where
`out = none` models the uncaught extraction `TypeError` of `fetchRunLogs` on
zero jobs; `hung` marks a poll script exhausted before `"completed"` (the code
would still be looping). -/
inductive DispatchResult where
  | noRunsFound
  | completedWith (out : Option (List (String × String)))
  | hung
  deriving Repr, DecidableEq

/-- `pluginDispatch(plugin, event)` of `created.ts`: derives the event type
from the plugin name, fires the repository dispatch, fetches the in-progress
batch, returns `"No runs found"` when it is empty, otherwise polls
`runs[0].id` to completion and extracts the output. Returns the result
together with the trace of stages performed. -/
def pluginDispatch (plugin : Plugin) (owner repo : String) (env : RemoteEnv) :
    DispatchResult × List OrchEvent :=
  match fetchInProgressRunsBatch5 owner repo (deriveEventType plugin.name)
      env.workflowRuns with
  | [] => (.noRunsFound, [.dispatched (deriveEventType plugin.name)])
  | run :: _ =>
      match pollTrace env.statuses with
      | none => (.hung, [.dispatched (deriveEventType plugin.name), .polled run.id])
      | some _ =>
          (.completedWith (fetchRunLogs env.jobs),
            [.dispatched (deriveEventType plugin.name), .polled run.id, .extracted])

/-- The comment-creation call issued by the worker handler
(`event.octokit.issues.createComment({...})`). -/
structure CommentCall where
  owner : String
  repo : String
  issueNumber : Nat
  body : String
  deriving Repr, DecidableEq

/-- The fields of an `issue_comment.created` event read by
`handleIssueCommentCreated` of `src/handlers/issue/comment_created.ts`. -/
structure WorkerCommentEvent where
  commentUserType : String
  repositoryOwnerLogin : String
  repositoryName : String
  issueNumber : Nat
  deriving Repr, DecidableEq

/-- `handleIssueCommentCreated(event)` of
`src/handlers/issue/comment_created.ts`: returns early when
`event.payload.comment.user.type === "Bot"`, otherwise issues exactly one
`createComment` call with the repository owner login, repository name, issue
number and the fixed body. The issued call (if any) is the return value. -/
def handleIssueCommentCreated (event : WorkerCommentEvent) : Option CommentCall :=
  if event.commentUserType == "Bot" then none
  else
    some { owner := event.repositoryOwnerLogin
           repo := event.repositoryName
           issueNumber := event.issueNumber
           body := "Hello from the worker!" }

/-! ## Lemmas about the output-object fold -/

theorem find?_map_insert_hit (m : List (String × String)) (k v : String)
    (h : m.any (fun p => p.1 == k) = true) :
    (m.map (fun p => if p.1 == k then (k, v) else p)).find? (fun p => p.1 == k) =
      some (k, v) := by
  induction m with
  | nil => simp at h
  | cons p rest ih =>
    rw [List.map_cons]
    by_cases hp : (p.1 == k) = true
    · have hfp : (if p.1 == k then (k, v) else p) = (k, v) := by simp [hp]
      rw [hfp]
      exact List.find?_cons_of_pos (p := fun q : String × String => q.1 == k) _ (beq_self_eq_true k)
    · have hfp : (if p.1 == k then (k, v) else p) = p := by simp [eq_false_of_ne_true hp]
      have h' : rest.any (fun q => q.1 == k) = true := by
        rcases List.any_eq_true.1 h with ⟨x, hxmem, hpx⟩
        rcases List.mem_cons.1 hxmem with hx | hx
        · subst hx; exact absurd hpx hp
        · exact List.any_eq_true.2 ⟨x, hx, hpx⟩
      rw [hfp, List.find?_cons_of_neg (p := fun q : String × String => q.1 == k) _ hp]
      exact ih h'

theorem find?_map_insert_miss (m : List (String × String)) (k v k' : String)
    (hk : k' ≠ k) :
    (m.map (fun p => if p.1 == k then (k, v) else p)).find? (fun p => p.1 == k') =
      m.find? (fun p => p.1 == k') := by
  induction m with
  | nil => rfl
  | cons p rest ih =>
    rw [List.map_cons]
    by_cases hp : (p.1 == k) = true
    · have hpk : p.1 = k := eq_of_beq hp
      have hfp : (if p.1 == k then (k, v) else p) = (k, v) := by simp [hp]
      have h1 : ¬(((k, v) : String × String).1 == k') = true := by
        simp [beq_eq_false_iff_ne.2 (Ne.symm hk)]
      have h2 : ¬(p.1 == k') = true := by
        rw [hpk]; simpa using Ne.symm hk
      rw [hfp, List.find?_cons_of_neg (p := fun q : String × String => q.1 == k') _ h1,
        List.find?_cons_of_neg (p := fun q : String × String => q.1 == k') _ h2]
      exact ih
    · have hfp : (if p.1 == k then (k, v) else p) = p := by simp [eq_false_of_ne_true hp]
      rw [hfp]
      by_cases hp' : (p.1 == k') = true
      · rw [List.find?_cons_of_pos (p := fun q : String × String => q.1 == k') _ hp',
          List.find?_cons_of_pos (p := fun q : String × String => q.1 == k') _ hp']
      · rw [List.find?_cons_of_neg (p := fun q : String × String => q.1 == k') _ hp',
          List.find?_cons_of_neg (p := fun q : String × String => q.1 == k') _ hp']
        exact ih

theorem lookupKV_insertOutput (m : List (String × String)) (k v k' : String) :
    lookupKV (insertOutput m k v) k' = if k' == k then some v else lookupKV m k' := by
  unfold insertOutput lookupKV
  by_cases hany : m.any (fun p => p.1 == k) = true
  · rw [if_pos hany]
    by_cases hk : k' = k
    · subst hk
      rw [find?_map_insert_hit m k' v hany, if_pos (beq_self_eq_true k')]
      rfl
    · rw [find?_map_insert_miss m k v k' hk,
        if_neg (by simpa using hk : ¬(k' == k) = true)]
  · rw [if_neg hany, List.find?_append]
    by_cases hk : k' = k
    · subst hk
      have hnone : m.find? (fun p => p.1 == k') = none := by
        rw [List.find?_eq_none]
        intro x hx hpx
        exact hany (List.any_eq_true.2 ⟨x, hx, hpx⟩)
      rw [hnone, List.find?_cons_of_pos (p := fun q : String × String => q.1 == k') _ (beq_self_eq_true k'),
        if_pos (beq_self_eq_true k')]
      rfl
    · have hnone₁ : ([((k, v) : String × String)]).find? (fun q => q.1 == k') = none := by
        rw [List.find?_cons_of_neg (p := fun q : String × String => q.1 == k') _
          (by simpa using Ne.symm hk : ¬(k == k') = true)]
        rfl
      rw [hnone₁, Option.or_none, if_neg (by simpa using hk : ¬(k' == k) = true)]

theorem lookupKV_foldl_insert (outs : List (String × String))
    (acc : List (String × String)) (k : String) :
    lookupKV (outs.foldl (fun a kv => insertOutput a kv.1 kv.2) acc) k =
      (lastOutputOccurrence outs k).or (lookupKV acc k) := by
  induction outs generalizing acc with
  | nil => simp [lastOutputOccurrence]
  | cons p rest ih =>
    rw [List.foldl_cons, ih, lookupKV_insertOutput]
    unfold lastOutputOccurrence
    rw [List.reverse_cons, List.find?_append]
    by_cases hp : p.1 = k
    · have h1 : ((fun q : String × String => q.1 == k) p) = true := by simpa using hp
      rw [List.find?_cons_of_pos (p := fun q : String × String => q.1 == k) _ h1]
      cases hA : rest.reverse.find? (fun q => q.1 == k) with
      | some q => simp [hA]
      | none => simp [hA, hp]
    · have h1 : ¬((fun q : String × String => q.1 == k) p) = true := by simpa using hp
      rw [List.find?_cons_of_neg (p := fun q : String × String => q.1 == k) _ h1]
      have h2 : (k == p.1) = false := beq_eq_false_iff_ne.2 (Ne.symm hp)
      cases hA : rest.reverse.find? (fun q => q.1 == k) with
      | some q => simp [hA]
      | none => simp [hA, h2]

theorem lookupKV_foldl_mergeStep (steps : List Step)
    (acc : List (String × String)) (k : String) :
    lookupKV (steps.foldl mergeStep acc) k =
      (lastSuccessOutput steps k).or (lookupKV acc k) := by
  induction steps generalizing acc with
  | nil => simp [lastSuccessOutput]
  | cons st rest ih =>
    rw [List.foldl_cons, ih]
    unfold lastSuccessOutput
    rw [List.reverse_cons, List.findSome?_append, Option.or_assoc]
    congr 1
    unfold mergeStep
    by_cases hc : (st.conclusion == "success") = true
    · cases ho : st.outputs with
      | some outs =>
          rw [if_pos hc]
          simp [ho, hc, lookupKV_foldl_insert, List.findSome?_cons, List.findSome?_nil]
          cases lastOutputOccurrence outs k <;> simp [eq_of_beq hc]
      | none =>
          rw [if_pos hc]
          simp [ho, hc, List.findSome?_cons, List.findSome?_nil]
    · have hcne : st.conclusion ≠ "success" := by simpa using hc
      rw [if_neg hc]
      simp [hcne, List.findSome?_cons, List.findSome?_nil]

/-! ## Claim theorems -/

/-- C1: for every run whose fetched job list is non-empty, `fetchRunLogs`
uses only the steps of the job at index 0, and the resulting mapping is the
declared-order fold over those steps that adds the output pairs of every step
with conclusion `"success"` and a present outputs mapping, later steps
overwriting earlier ones on key collision (characterised key-by-key by
`lastSuccessOutput`); on the example step list
`[{success,{a:1}}, {failure,{a:2}}, {success,{a:3,b:4}}]` the result is
`{a:3, b:4}`. -/
theorem fetchRunLogs_first_job_last_write_wins :
    (∀ (job : Job) (rest : List Job), fetchRunLogs (job :: rest) = fetchRunLogs [job]) ∧
    (∀ (steps : List Step) (k : String),
      lookupKV (extractOutputs steps) k = lastSuccessOutput steps k) ∧
    fetchRunLogs
      [{ id := 7,
         steps :=
          [{ conclusion := "success", outputs := some [("a", "1")] },
           { conclusion := "failure", outputs := some [("a", "2")] },
           { conclusion := "success", outputs := some [("a", "3"), ("b", "4")] }] }] =
      some [("a", "3"), ("b", "4")] := by
  refine ⟨fun job rest => rfl, fun steps k => ?_, by decide⟩
  have h := lookupKV_foldl_mergeStep steps [] k
  simpa [extractOutputs, lookupKV] using h

/-- C2: on the scripted status sequence
`["queued", "in_progress", "in_progress", "completed"]` the polling loop of
`pollInProgressRunTillCompletion` performs exactly 4 status reads, returns
right after the read that observes `"completed"`, and the only action between
consecutive reads is one fixed 15-second (15000 ms) suspension. -/
theorem pollTrace_scripted_four_reads :
    pollTrace ["queued", "in_progress", "in_progress", "completed"] =
      some [.read "queued", .sleep 15000, .read "in_progress", .sleep 15000,
            .read "in_progress", .sleep 15000, .read "completed"] ∧
    (pollTrace ["queued", "in_progress", "in_progress", "completed"]).map
      (fun tr => (readsOf tr).length) = some 4 := by
  decide

/-- C3: for every owner, repo, event type and remote run listing,
`fetchInProgressRunsBatch5` returns at most 5 runs, every returned run is
named `eventType` with status `"in_progress"`, and the returned runs form a
sublist of the listing (same relative, most-recent-first order). -/
theorem fetchInProgressRunsBatch5_bounds (owner repo eventType : String)
    (workflowRuns : List WorkflowRun) :
    (fetchInProgressRunsBatch5 owner repo eventType workflowRuns).length ≤ 5 ∧
    (fetchInProgressRunsBatch5 owner repo eventType workflowRuns).all
      (fun run => run.name == eventType && run.status == "in_progress") = true ∧
    (fetchInProgressRunsBatch5 owner repo eventType workflowRuns).Sublist workflowRuns := by
  unfold fetchInProgressRunsBatch5 fetchInvokedPluginRunner
  refine ⟨?_, ?_, ?_⟩
  · exact le_trans (List.length_filter_le _ _) (List.length_take_le _ _)
  · rw [List.all_eq_true]
    intro run hrun
    have h1 := List.mem_filter.1 hrun
    have h2 := List.mem_filter.1 (List.mem_of_mem_take h1.1)
    simp [h1.2, h2.2]
  · exact ((List.filter_sublist _).trans (List.take_sublist _ _)).trans
      (List.filter_sublist _)

/-- C4: whenever the run lookback right after a dispatch yields an empty
filtered sequence of in-progress runs, `pluginDispatch` returns the
"no runs found" outcome and its trace contains neither a poller invocation
nor an extractor invocation. -/
theorem pluginDispatch_no_runs_found (plugin : Plugin) (owner repo : String)
    (env : RemoteEnv)
    (h : fetchInProgressRunsBatch5 owner repo (deriveEventType plugin.name)
          env.workflowRuns = []) :
    pluginDispatch plugin owner repo env =
      (.noRunsFound, [.dispatched (deriveEventType plugin.name)]) ∧
    ∀ e ∈ (pluginDispatch plugin owner repo env).2,
      (∀ runId, e ≠ .polled runId) ∧ e ≠ .extracted := by
  have key : pluginDispatch plugin owner repo env =
      (.noRunsFound, [.dispatched (deriveEventType plugin.name)]) := by
    unfold pluginDispatch
    rw [h]
  refine ⟨key, ?_⟩
  rw [key]
  intro e he
  rcases List.mem_cons.1 he with he | he
  · subst he
    exact ⟨fun runId => by simp, by simp⟩
  · cases he

/-- Witness for C4 at a concrete input: an empty remote listing filters to the
empty batch, and the orchestrator stops with the "no runs found" outcome. -/
theorem pluginDispatch_no_runs_found_witness :
    pluginDispatch { name := "Help Menu", command := "/help" } "ubiquity" "kernel"
        { workflowRuns := [], statuses := [], jobs := [] } =
      (.noRunsFound, [.dispatched (deriveEventType "Help Menu")]) :=
  (pluginDispatch_no_runs_found
    { name := "Help Menu", command := "/help" } "ubiquity" "kernel"
    { workflowRuns := [], statuses := [], jobs := [] } (by decide)).1

/-- C5: `commentParser` returns the first command in configuration order whose
match string matches at the start of the text (prefix plus the regex's word
boundary), and `none` when the command list is empty or no command matches;
in particular `commands = [{command:"/help"}]` with text `"hello"` yields
`none`. -/
theorem commentParser_first_match :
    (∀ (body : String) (plugins : List Plugin),
      commentParser body plugins =
        (plugins.map (·.command)).find? (fun c => matchesAtStart c body)) ∧
    commentParser "hello" [{ name := "Help Menu", command := "/help" }] = none := by
  constructor
  · intro body plugins
    unfold commentParser commentParserWith regexExecAlt
    cases hp : plugins.map (·.command) with
    | nil =>
      cases hm : matchesAtStart "" body <;> simp [List.find?, hm]
    | cons c rest =>
      simp only [List.isEmpty_cons, if_false, Bool.false_eq_true]
      cases hf : (c :: rest).find? (fun c => matchesAtStart c body) with
      | none => rfl
      | some m =>
        have hmem : m ∈ c :: rest := List.mem_of_find?_eq_some hf
        have hcont : (c :: rest).contains m = true := List.elem_iff.2 hmem
        show (if (c :: rest).contains m = true then some m else none) = some m
        rw [if_pos hcont]
  · decide

/-- C6: if some status read of the script eventually yields `"completed"`,
the polling loop terminates and its last action is the read observing
`"completed"` — it never returns after observing a non-completed status. -/
theorem pollTrace_terminates_on_completed (script : List String)
    (h : "completed" ∈ script) :
    ∃ tr, pollTrace script = some tr ∧
      tr.getLast? = some (.read "completed") := by
  induction script with
  | nil => cases h
  | cons s rest ih =>
    by_cases hs : (s == "completed") = true
    · have hse : s = "completed" := eq_of_beq hs
      refine ⟨[.read s], ?_, ?_⟩
      · unfold pollTrace
        rw [if_pos hs]
      · rw [hse]
        rfl
    · have hmem : "completed" ∈ rest := by
        rcases List.mem_cons.1 h with hc | hc
        · exact absurd (beq_iff_eq.2 hc.symm) hs
        · exact hc
      obtain ⟨tr, htr, hlast⟩ := ih hmem
      refine ⟨.read s :: .sleep 15000 :: tr, ?_, ?_⟩
      · unfold pollTrace
        rw [if_neg hs, htr]
        rfl
      · rw [List.getLast?_cons_cons]
        cases tr with
        | nil => simp at hlast
        | cons a l =>
          rw [List.getLast?_cons_cons]
          exact hlast

/-- Witness for C6 at a concrete script. -/
theorem pollTrace_terminates_on_completed_witness :
    ∃ tr, pollTrace ["queued", "completed"] = some tr ∧
      tr.getLast? = some (.read "completed") :=
  pollTrace_terminates_on_completed ["queued", "completed"] (by decide)

/-- C7: the code, not the claim, is at fault here. On a run whose job list is
empty, `fetchRunLogs` evaluates `jobsData.jobs[0].id` with `jobs[0]` equal to
`undefined`, so the `.id` access throws an uncaught `TypeError` (modelled as
`none`): no ExtractionError outcome is reported to the orchestrator. -/
theorem fetchRunLogs_zero_jobs_uncaught : fetchRunLogs [] = none := rfl

/-- C8: the dispatch event type is derived deterministically from the
plugin's display name alone — the first trace entry of every `pluginDispatch`
invocation is the dispatch of `deriveEventType plugin.name` (lowercased name
with whitespace replaced by hyphens), whatever the environment — and
`"Help Menu"` derives `"help-menu"`. -/
theorem pluginDispatch_event_type_from_name :
    (∀ (plugin : Plugin) (owner repo : String) (env : RemoteEnv),
      (pluginDispatch plugin owner repo env).2.head? =
        some (.dispatched (deriveEventType plugin.name))) ∧
    deriveEventType "Help Menu" = "help-menu" := by
  constructor
  · intro plugin owner repo env
    unfold pluginDispatch
    cases h1 : fetchInProgressRunsBatch5 owner repo (deriveEventType plugin.name)
        env.workflowRuns with
    | nil => rfl
    | cons run rest =>
      cases h2 : pollTrace env.statuses with
      | none => rfl
      | some tr => rfl
  · decide

/-- C9: whatever the regex engine returns as matched text, a non-`none`
result of the parser is literally the match string of some configured
command: the membership check `pluginCommands.includes(command)` forces
`none` whenever the matched text differs from every configured command. -/
theorem commentParserWith_membership
    (execAlt : List String → String → Option String)
    (body : String) (plugins : List Plugin) (result : String)
    (h : commentParserWith execAlt body plugins = some result) :
    result ∈ plugins.map (·.command) := by
  unfold commentParserWith at h
  cases he : execAlt (plugins.map (·.command)) body with
  | none =>
    rw [he] at h
    cases h
  | some m =>
    rw [he] at h
    have h' : (if (plugins.map (·.command)).contains m = true then some m
        else none) = some result := h
    by_cases hc : (plugins.map (·.command)).contains m = true
    · rw [if_pos hc] at h'
      cases h'
      exact List.elem_iff.1 hc
    · rw [if_neg hc] at h'
      cases h'

/-- Witness for C9 at a concrete input: `"/help"` on body `"/help"` is
returned and is a configured command string. -/
theorem commentParserWith_membership_witness :
    "/help" ∈ ([{ name := "Help Menu", command := "/help" }] : List Plugin).map
      (·.command) :=
  commentParserWith_membership regexExecAlt "/help"
    [{ name := "Help Menu", command := "/help" }] "/help" (by decide)

/-- C10: the worker comment handler issues no comment-creation call when the
comment author's user type is `"Bot"`, and issues exactly the fixed
comment-creation call on the event's repository and issue otherwise. -/
theorem handleIssueCommentCreated_bot_guard (event : WorkerCommentEvent) :
    (event.commentUserType = "Bot" → handleIssueCommentCreated event = none) ∧
    (event.commentUserType ≠ "Bot" →
      handleIssueCommentCreated event =
        some { owner := event.repositoryOwnerLogin, repo := event.repositoryName,
               issueNumber := event.issueNumber, body := "Hello from the worker!" }) := by
  constructor
  · intro h
    unfold handleIssueCommentCreated
    rw [if_pos (beq_iff_eq.2 h)]
  · intro h
    unfold handleIssueCommentCreated
    rw [if_neg (by simpa using h)]

/-- Witness for C10 at concrete events: a bot comment is skipped, a user
comment produces the comment-creation call. -/
theorem handleIssueCommentCreated_bot_guard_witness :
    handleIssueCommentCreated
      { commentUserType := "Bot", repositoryOwnerLogin := "ubiquity",
        repositoryName := "kernel", issueNumber := 1 } = none ∧
    handleIssueCommentCreated
      { commentUserType := "User", repositoryOwnerLogin := "ubiquity",
        repositoryName := "kernel", issueNumber := 1 } =
      some { owner := "ubiquity", repo := "kernel", issueNumber := 1,
             body := "Hello from the worker!" } :=
  ⟨(handleIssueCommentCreated_bot_guard
      { commentUserType := "Bot", repositoryOwnerLogin := "ubiquity",
        repositoryName := "kernel", issueNumber := 1 }).1 rfl,
   (handleIssueCommentCreated_bot_guard
      { commentUserType := "User", repositoryOwnerLogin := "ubiquity",
        repositoryName := "kernel", issueNumber := 1 }).2 (by decide)⟩

end UbiquibotKernel
